import Mathlib

/-!
Verification of the recursive merge engine of `configmerge.py`
(functions `merge`, `merge_dict`, `merge_list`, `merge_simple`, `deep_freeze`).

Modelling choices, all taken from the source:

* A configuration value (`CV`) is a finite tree of Python `None`, `bool`,
  `int`, `float`, `str`, `dict`, `FrozenOrderedDict` (the immutable mapping of
  the `frozendict` package), `list` and `tuple`.  Entries of a mapping are kept
  in insertion order, as Python dicts do.
* Python floats are modelled as rationals: the engine never performs float
  arithmetic, it only compares (`==`) and moves float values, and IEEE-754
  equality on the non-NaN doubles coincides with equality of the represented
  rational values.  (NaN is outside the model; the spec explicitly leaves NaN
  handling unrequired.)
* `pyEq` models Python `==` on these values: numbers compare by numeric value
  across `bool`/`int`/`float` (in Python, `True == 1 == 1.0`, because `bool`
  subclasses `int` and `int`/`float` compare numerically); strings compare as
  strings; `list`/`tuple` compare elementwise against the same container kind
  only; mappings (`dict`, `FrozenOrderedDict`) compare across mapping kinds by
  key set and per-key values, order-independently (this is
  `collections.abc.Mapping.__eq__`, which `FrozenOrderedDict` inherits:
  `isinstance(other, Mapping) and dict(self) == dict(other)`); values of
  different non-numeric, non-mapping kinds compare unequal.
* The in-place mutation of `merge`, `merge_dict` and `merge_list` is modelled
  by explicit state passing: `merge` returns the state of its first argument
  after the call together with `Except`-style success or failure, and
  `merge_dict` returns the state of its first argument together with an
  optional error, so that the state a failing call leaves behind is visible.
  Python `TypeError` messages are carried verbatim as the error strings.
* The membership set `member` of `merge_list` is modelled as a list scanned
  with `pyEq`: the code only tests membership and inserts elements that were
  just tested absent, and for those two operations a `pyEq`-scanned list has
  exactly the semantics of a Python `set` of the frozen values.
-/

/-- The configuration-value tree: Python `None`, `bool`, `int`, `float`,
`str`, mutable `dict`, immutable `FrozenOrderedDict`, mutable `list`,
immutable `tuple`.  Mapping entries are in insertion order. -/
inductive CV : Type where
  | null : CV
  | bool : Bool → CV
  | int : Int → CV
  | float : Rat → CV
  | str : String → CV
  | dict : List (CV × CV) → CV
  | frozenDict : List (CV × CV) → CV
  | list : List CV → CV
  | tuple : List CV → CV

/-- The numeric value of a Python number, if the value is one.  In Python,
`bool` is a subclass of `int` (`True == 1`), and `int` and `float` compare by
numeric value, so all three kinds live on one number line for `==`. -/
def numVal : CV → Option Rat
  | .bool b => some (if b then 1 else 0)
  | .int n => some ((n : Rat))
  | .float q => some q
  | _ => none

/-- Scan a mapping's entry list for the first key accepted by `kEq`; on a hit,
test the value with `vEq`.  This is Python's per-key step of
`dict(self) == dict(other)`: look the key up in the other mapping (first and,
in a real dict, only match) and compare the values. -/
def scanMatch (kEq vEq : CV → Bool) : List (CV × CV) → Bool
  | [] => false
  | (k', v') :: rest => if kEq k' then vEq v' else scanMatch kEq vEq rest

/-- Every entry of the first mapping (given as key/value comparator pairs)
has a matching entry in the second mapping's entry list. -/
def entriesLe : List ((CV → Bool) × (CV → Bool)) → List (CV × CV) → Bool
  | [], _ => true
  | p :: rest, e2 => scanMatch p.1 p.2 e2 && entriesLe rest e2

/-- Elementwise comparison of a list against a list of comparators, Python's
sequence `==`: equal lengths and pairwise equal elements. -/
def cmpList : List (CV → Bool) → List CV → Bool
  | [], [] => true
  | f :: fs, y :: ys => f y && cmpList fs ys
  | _, _ => false

mutual

/-- Python `==` on configuration values.  Numbers (`bool`/`int`/`float`)
compare by numeric value; strings as strings; `list` with `list` and `tuple`
with `tuple` elementwise; mappings with mappings (either kind) by equal size
and per-key equal values, order-independently, as
`collections.abc.Mapping.__eq__` does; everything else is unequal. -/
def pyEq : CV → CV → Bool
  | .null, b => match b with | .null => true | _ => false
  | .str s, b => match b with | .str t => decide (s = t) | _ => false
  | .list xs, b => match b with | .list ys => cmpList (pyEqFns xs) ys | _ => false
  | .tuple xs, b => match b with | .tuple ys => cmpList (pyEqFns xs) ys | _ => false
  | .dict e1, b =>
    match b with
    | .dict e2 => decide (e1.length = e2.length) && entriesLe (pyEqEntryFns e1) e2
    | .frozenDict e2 => decide (e1.length = e2.length) && entriesLe (pyEqEntryFns e1) e2
    | _ => false
  | .frozenDict e1, b =>
    match b with
    | .dict e2 => decide (e1.length = e2.length) && entriesLe (pyEqEntryFns e1) e2
    | .frozenDict e2 => decide (e1.length = e2.length) && entriesLe (pyEqEntryFns e1) e2
    | _ => false
  | a, b =>
    match numVal a, numVal b with
    | some p, some q => decide (p = q)
    | _, _ => false

/-- One comparator `pyEq x ·` per element of a list. -/
def pyEqFns : List CV → List (CV → Bool)
  | [] => []
  | x :: xs => (fun b => pyEq x b) :: pyEqFns xs

/-- One comparator pair `(pyEq k ·, pyEq v ·)` per entry of a mapping. -/
def pyEqEntryFns : List (CV × CV) → List ((CV → Bool) × (CV → Bool))
  | [] => []
  | (k, v) :: rest => ((fun b => pyEq k b), (fun b => pyEq v b)) :: pyEqEntryFns rest

end

/-- Python `key in d` / `d[key]` on a dict's entry list: value of the first
(and in a real dict, only) entry whose key is `==` to `k`. -/
def pyLookup (k : CV) : List (CV × CV) → Option CV
  | [] => none
  | (k', v') :: rest => if pyEq k k' then some v' else pyLookup k rest

/-- Python `d[key] = nv` for a key already present: the stored key and the
entry's position are kept, only the value is replaced. -/
def dictReplace (k nv : CV) : List (CV × CV) → List (CV × CV)
  | [] => []
  | (k', v') :: rest =>
    if pyEq k k' then (k', nv) :: rest else (k', v') :: dictReplace k nv rest

/-- Python `x in member` for the membership collection of `merge_list`. -/
def pyMem (x : CV) : List CV → Bool
  | [] => false
  | y :: rest => pyEq x y || pyMem x rest

mutual

/-- `deep_freeze` (configmerge.py lines 415-473).  `None`, `bool`, `int`,
`float`, `str` freeze to themselves (each branch rebuilds the same value);
a mutable `dict` freezes recursively to a `FrozenOrderedDict`; an already
immutable mapping freezes shallowly (`FrozenOrderedDict(obj)` copies the
entries as they are); a mutable `list` freezes recursively to a `tuple`; an
already immutable sequence freezes shallowly (`tuple(obj)`).  Every `CV`
variant is one of the supported cases, so the `TypeError("unsupported type")`
branch is unreachable in the model. -/
def deep_freeze : CV → CV
  | .null => .null
  | .bool b => .bool b
  | .int n => .int n
  | .float q => .float q
  | .str s => .str s
  | .dict e => .frozenDict (deepFreezeEntries e)
  | .frozenDict e => .frozenDict e
  | .list xs => .tuple (deepFreezeList xs)
  | .tuple xs => .tuple xs

/-- Entrywise `deep_freeze` of a mutable mapping's entries. -/
def deepFreezeEntries : List (CV × CV) → List (CV × CV)
  | [] => []
  | (k, v) :: rest => (deep_freeze k, deep_freeze v) :: deepFreezeEntries rest

/-- Elementwise `deep_freeze` of a mutable sequence's elements. -/
def deepFreezeList : List CV → List CV
  | [] => []
  | x :: rest => deep_freeze x :: deepFreezeList rest

end

/-- The loop of `merge_list` (configmerge.py lines 506-515): `l1` is the
mutated base list, `member` the membership collection of frozen values built
so far; each incoming element is frozen, skipped if its frozen form is already
a member, and otherwise appended to both `l1` and `member`. -/
def mergeListAux : List CV → List CV → List CV → List CV
  | l1, _, [] => l1
  | l1, member, v :: rest =>
    let frozen := deep_freeze v
    if pyMem frozen member then mergeListAux l1 member rest
    else mergeListAux (l1 ++ [v]) (member ++ [frozen]) rest

/-- `merge_list` (configmerge.py lines 476-515): seed the membership
collection with the frozen elements of `l1`, then run the loop over `l2`.
The result is the final state of the mutated `l1`. -/
def merge_list (l1 l2 : List CV) : List CV :=
  mergeListAux l1 (List.map deep_freeze l1) l2

/-- Python `isinstance(v, bool)`. -/
def isBoolV : CV → Bool
  | .bool _ => true
  | _ => false

/-- Python `isinstance(v, numbers.Integral)`: `bool` is a subclass of `int`,
so it is `Integral` too. -/
def isIntegralV : CV → Bool
  | .bool _ => true
  | .int _ => true
  | _ => false

/-- Python `isinstance(v, numbers.Real)`: the numeric tower has
`Integral ⊆ Real`, so `bool`, `int` and `float` are all `Real`. -/
def isRealV : CV → Bool
  | .bool _ => true
  | .int _ => true
  | .float _ => true
  | _ => false

/-- Python `isinstance(v, str)`. -/
def isTextV : CV → Bool
  | .str _ => true
  | _ => false

/-- `merge_simple` (configmerge.py lines 518-562): four cascading
`isinstance` checks — both `bool`, both `Integral`, both `Real`, both `str` —
each returning `value2`; otherwise
`TypeError("unsupported type or type combination")`. -/
def merge_simple (value1 value2 : CV) : Except String CV :=
  if isBoolV value1 && isBoolV value2 then .ok value2
  else if isIntegralV value1 && isIntegralV value2 then .ok value2
  else if isRealV value1 && isRealV value2 then .ok value2
  else if isTextV value1 && isTextV value2 then .ok value2
  else .error "unsupported type or type combination"

/-- Iterating a Python `str` yields its characters as one-character strings;
this is what `merge_list` receives when the incoming value is a string. -/
def strElems (s : String) : List CV :=
  s.data.map (fun c => .str (String.mk [c]))

mutual

/-- `merge` (configmerge.py lines 311-379).  The result is the pair of the
state of `value1` after the call (the in-place mutations it suffered) and the
returned value or raised `TypeError`.  Dispatch order as in the source: a
`None` `value2` returns `value1`; a `None` `value1` returns `value2`; a
mapping `value1` must be mutable, then `value2` must be a mapping (of either
kind) and is merged in place via `merge_dict`; a non-string sequence `value1`
must be mutable, then `value2` must be a sequence — in Python `str` is
registered as a `Sequence`, so a string `value2` is accepted and iterated
character by character — and is merged via `merge_list`; anything else goes to
`merge_simple`, which never mutates `value1`. -/
def merge : CV → CV → CV × Except String CV
  | value1, .null => (value1, .ok value1)
  | .null, value2 => (.null, .ok value2)
  | .dict d1, value2 =>
    match value2 with
    | .dict e2 =>
      match merge_dict d1 e2 with
      | (st, none) => (.dict st, .ok (.dict st))
      | (st, some e) => (.dict st, .error e)
    | .frozenDict e2 =>
      match merge_dict d1 e2 with
      | (st, none) => (.dict st, .ok (.dict st))
      | (st, some e) => (.dict st, .error e)
    | _ => (.dict d1, .error "can only merge another mapping into mapping")
  | .frozenDict e1, _ => (.frozenDict e1, .error "mapping must be mutable")
  | .list l1, value2 =>
    match value2 with
    | .list l2 => let r := merge_list l1 l2; (.list r, .ok (.list r))
    | .tuple l2 => let r := merge_list l1 l2; (.list r, .ok (.list r))
    | .str s => let r := merge_list l1 (strElems s); (.list r, .ok (.list r))
    | _ => (.list l1, .error "can only merge another sequence into sequence")
  | .tuple xs, _ => (.tuple xs, .error "sequence must be mutable")
  | value1, value2 => (value1, merge_simple value1 value2)

/-- `merge_dict` (configmerge.py lines 382-412), on the entry lists: iterate
the incoming entries in order; an absent key is inserted with the incoming
value verbatim (at the end, as Python dict insertion does); a present key gets
`merge(d1[key], value)`.  The result is the final state of `d1` together with
the raised error, if any: when the recursive `merge` fails, the loop stops
there and `d1` keeps every mutation already applied — including the partial
in-place mutations of the value object `d1[key]` that the failed recursive
call left behind (the assignment itself does not run on failure, but `d1[key]`
is that same object). -/
def merge_dict : List (CV × CV) → List (CV × CV) → List (CV × CV) × Option String
  | d1, [] => (d1, none)
  | d1, (k, v) :: rest =>
    match pyLookup k d1 with
    | none => merge_dict (d1 ++ [(k, v)]) rest
    | some old =>
      match merge old v with
      | (st, .error e) => (dictReplace k st d1, some e)
      | (_, .ok nv) => merge_dict (dictReplace k nv d1) rest

end

/-- The accepted incoming elements of a sequence merge, as the specification
words it: walking the incoming elements in order, an element is kept exactly
when its canonical form (`deep_freeze`) is not `==` to any canonical form in
the union built so far (`seen`, seeded with the canonical forms of the base's
elements); a kept element's canonical form joins the union. -/
def sieve (seen : List CV) : List CV → List CV
  | [] => []
  | v :: rest =>
    if pyMem (deep_freeze v) seen then sieve seen rest
    else v :: sieve (seen ++ [deep_freeze v]) rest

/-- Python value kind: a scalar (`None`, `bool`, `int`, `float`, `str`). -/
def isScalar : CV → Bool
  | .null => true
  | .bool _ => true
  | .int _ => true
  | .float _ => true
  | .str _ => true
  | _ => false

/-- Python `isinstance(v, Mapping)`. -/
def isMappingV : CV → Bool
  | .dict _ => true
  | .frozenDict _ => true
  | _ => false

/-- Python `isinstance(v, Sequence)`: `list`, `tuple` and also `str`, which
the `collections.abc` hierarchy registers as a `Sequence`. -/
def isSequenceV : CV → Bool
  | .list _ => true
  | .tuple _ => true
  | .str _ => true
  | _ => false

/-- A non-string sequence (`list` or `tuple`), the kinds dispatched to the
sequence branch of `merge` when they are the base. -/
def isSeqNonTextV : CV → Bool
  | .list _ => true
  | .tuple _ => true
  | _ => false

/-- The merge call raised (its `Except` component is an error). -/
def isErrRes : CV × Except String CV → Bool
  | (_, .error _) => true
  | _ => false

mutual

/-- The tree uses only the mutable containers of the specification's CV data
model (Section 3: Mapping and Sequence are mutable; `FrozenOrderedDict` and
`tuple` exist in the code only as canonical forms). -/
def mutableOnly : CV → Bool
  | .dict e => mutableOnlyEntries e
  | .frozenDict _ => false
  | .list xs => mutableOnlyList xs
  | .tuple _ => false
  | _ => true

/-- `mutableOnly` for every key and value of a mapping's entries. -/
def mutableOnlyEntries : List (CV × CV) → Bool
  | [] => true
  | (k, v) :: rest => mutableOnly k && mutableOnly v && mutableOnlyEntries rest

/-- `mutableOnly` for every element of a sequence. -/
def mutableOnlyList : List CV → Bool
  | [] => true
  | x :: rest => mutableOnly x && mutableOnlyList rest

end

/-- The key `k` is distinct (`==`-unequal, in both orientations) from every
key of the entry list — Python dicts never hold two `==`-equal keys. -/
def keyFresh (k : CV) : List (CV × CV) → Bool
  | [] => true
  | (k', _) :: rest => !pyEq k k' && !pyEq k' k && keyFresh k rest

/-- The mapping invariant of the data model: keys are scalars (the spec's
"Text-or-comparable", i.e. hashable leaves) and pairwise `==`-distinct. -/
def keysOK : List (CV × CV) → Bool
  | [] => true
  | (k, _) :: rest => isScalar k && keyFresh k rest && keysOK rest

mutual

/-- Well-formedness of a configuration tree: every mapping in it satisfies
the key invariant `keysOK`, recursively.  Every tree a Python dict/list
structure can actually represent satisfies this. -/
def wellKeyed : CV → Bool
  | .dict e => keysOK e && wellKeyedEntries e
  | .frozenDict e => keysOK e && wellKeyedEntries e
  | .list xs => wellKeyedList xs
  | .tuple xs => wellKeyedList xs
  | _ => true

/-- `wellKeyed` for every key and value of a mapping's entries. -/
def wellKeyedEntries : List (CV × CV) → Bool
  | [] => true
  | (k, v) :: rest => wellKeyed k && wellKeyed v && wellKeyedEntries rest

/-- `wellKeyed` for every element of a sequence. -/
def wellKeyedList : List CV → Bool
  | [] => true
  | x :: rest => wellKeyed x && wellKeyedList rest

end

mutual

/-- Modelled from the spec's words (Section 4.2): structural equivalence of
two configuration trees of the mutable CV data model — mapping key order
ignored (equal key sets with equal values per key, here phrased as equal entry
counts plus every left entry matching on the right, which for unique-keyed
mappings is the same relation), sequence order respected, scalars by value.
Numeric scalars compare by numeric value across `bool`/`int`/`float`, the
amendment the code forces on the spec's "distinct canonical kinds" wording.
Immutable containers are outside the spec's CV model and are never
equivalent to anything here. -/
def structEquiv : CV → CV → Bool
  | .null, b => match b with | .null => true | _ => false
  | .str s, b => match b with | .str t => decide (s = t) | _ => false
  | .list xs, b => match b with | .list ys => cmpList (structEquivFns xs) ys | _ => false
  | .dict e1, b =>
    match b with
    | .dict e2 => decide (e1.length = e2.length) && entriesLe (structEquivEntryFns e1) e2
    | _ => false
  | .tuple _, _ => false
  | .frozenDict _, _ => false
  | a, b =>
    match numVal a, numVal b with
    | some p, some q => decide (p = q)
    | _, _ => false

/-- One comparator `structEquiv x ·` per element of a list. -/
def structEquivFns : List CV → List (CV → Bool)
  | [] => []
  | x :: xs => (fun b => structEquiv x b) :: structEquivFns xs

/-- One comparator pair per entry of a mapping. -/
def structEquivEntryFns : List (CV × CV) → List ((CV → Bool) × (CV → Bool))
  | [] => []
  | (k, v) :: rest => ((fun b => structEquiv k b), (fun b => structEquiv v b)) :: structEquivEntryFns rest

end

/-- The keys of `B` are all absent from `A` (Python `key not in A`). -/
def keysDisjoint (A B : List (CV × CV)) : Bool :=
  B.all fun p => (pyLookup p.1 A).isNone

theorem mergeListAux_eq_sieve : ∀ (l2 l1 member : List CV),
    mergeListAux l1 member l2 = l1 ++ sieve member l2
  | [], l1, member => by simp [mergeListAux, sieve]
  | v :: rest, l1, member => by
    by_cases h : pyMem (deep_freeze v) member = true
    · simp only [mergeListAux, sieve, h, if_pos]
      exact mergeListAux_eq_sieve rest l1 member
    · rw [Bool.not_eq_true] at h
      simp only [mergeListAux, sieve, h, Bool.false_eq_true, if_false]
      rw [mergeListAux_eq_sieve rest]
      simp

theorem deepFreezeEntries_eq_map (e : List (CV × CV)) :
    deepFreezeEntries e = e.map fun p => (deep_freeze p.1, deep_freeze p.2) := by
  induction e with
  | nil => rfl
  | cons p rest ih => cases p; simp [deepFreezeEntries, ih]

theorem deepFreezeList_eq_map (xs : List CV) :
    deepFreezeList xs = xs.map deep_freeze := by
  induction xs with
  | nil => rfl
  | cons x rest ih => simp [deepFreezeList, ih]

theorem deep_freeze_scalar {x : CV} (h : isScalar x = true) : deep_freeze x = x := by
  cases x <;> first | rfl | exact absurd h (by simp [isScalar])

theorem pyEq_refl_scalar {x : CV} (h : isScalar x = true) : pyEq x x = true := by
  cases x <;> simp_all [pyEq, isScalar, numVal]

theorem pyMem_of_mem {x : CV} {member : List CV} (hm : x ∈ member)
    (hr : pyEq x x = true) : pyMem x member = true := by
  induction member with
  | nil => cases hm
  | cons y rest ih =>
    rcases List.mem_cons.mp hm with h | h
    · subst h; simp [pyMem, hr]
    · simp [pyMem, ih h]

theorem keyFresh_spec {k k' v' : CV} : ∀ {rest : List (CV × CV)},
    keyFresh k rest = true → (k', v') ∈ rest →
    pyEq k k' = false ∧ pyEq k' k = false := by
  intro rest
  induction rest with
  | nil => intro _ hm; cases hm
  | cons p rest ih =>
    intro hf hm
    obtain ⟨k0, v0⟩ := p
    simp only [keyFresh, Bool.and_eq_true, Bool.not_eq_true'] at hf
    rcases List.mem_cons.mp hm with h | h
    · obtain ⟨h1, h2⟩ := Prod.mk.injEq .. ▸ h
      exact ⟨h1 ▸ hf.1.1, h1 ▸ hf.1.2⟩
    · exact ih hf.2 h

theorem keysOK_head_scalar {k v : CV} {rest : List (CV × CV)}
    (h : keysOK ((k, v) :: rest) = true) :
    isScalar k = true ∧ keyFresh k rest = true ∧ keysOK rest = true := by
  simp only [keysOK, Bool.and_eq_true] at h
  exact ⟨h.1.1, h.1.2, h.2⟩

theorem pyLookup_self {k v : CV} : ∀ {e : List (CV × CV)},
    keysOK e = true → (k, v) ∈ e → pyLookup k e = some v := by
  intro e
  induction e with
  | nil => intro _ hm; cases hm
  | cons p rest ih =>
    intro hok hm
    obtain ⟨k0, v0⟩ := p
    obtain ⟨hs, hf, hrest⟩ := keysOK_head_scalar hok
    rcases List.mem_cons.mp hm with h | h
    · obtain ⟨h1, h2⟩ := Prod.mk.injEq .. ▸ h
      subst h1; subst h2
      simp [pyLookup, pyEq_refl_scalar hs]
    · have hne := (keyFresh_spec hf h).2
      simp [pyLookup, hne, ih hrest h]

theorem dictReplace_self {k v : CV} : ∀ {d : List (CV × CV)},
    pyLookup k d = some v → dictReplace k v d = d := by
  intro d
  induction d with
  | nil => intro h; cases h
  | cons p rest ih =>
    intro h
    obtain ⟨k0, v0⟩ := p
    by_cases hk : pyEq k k0 = true
    · simp only [pyLookup, hk, if_pos, Option.some.injEq] at h
      simp [dictReplace, hk, h]
    · rw [Bool.not_eq_true] at hk
      simp only [pyLookup, hk, Bool.false_eq_true, if_false] at h
      simp [dictReplace, hk, ih h]

theorem pyLookup_append {k : CV} : ∀ (A B : List (CV × CV)),
    pyLookup k (A ++ B) =
      match pyLookup k A with
      | some v => some v
      | none => pyLookup k B := by
  intro A B
  induction A with
  | nil => simp [pyLookup]
  | cons p rest ih =>
    obtain ⟨k0, v0⟩ := p
    by_cases hk : pyEq k k0 = true
    · simp [pyLookup, hk]
    · rw [Bool.not_eq_true] at hk
      simp [pyLookup, hk, ih]

theorem wellKeyedEntries_mem {k v : CV} : ∀ {e : List (CV × CV)},
    wellKeyedEntries e = true → (k, v) ∈ e →
    wellKeyed k = true ∧ wellKeyed v = true := by
  intro e
  induction e with
  | nil => intro _ hm; cases hm
  | cons p rest ih =>
    intro hw hm
    obtain ⟨k0, v0⟩ := p
    simp only [wellKeyedEntries, Bool.and_eq_true] at hw
    rcases List.mem_cons.mp hm with h | h
    · obtain ⟨h1, h2⟩ := Prod.mk.injEq .. ▸ h
      exact ⟨h1 ▸ hw.1.1, h2 ▸ hw.1.2⟩
    · exact ih hw.2 h

theorem wellKeyedList_mem {x : CV} : ∀ {xs : List CV},
    wellKeyedList xs = true → x ∈ xs → wellKeyed x = true := by
  intro xs
  induction xs with
  | nil => intro _ hm; cases hm
  | cons y rest ih =>
    intro hw hm
    simp only [wellKeyedList, Bool.and_eq_true] at hw
    rcases List.mem_cons.mp hm with h | h
    · exact h ▸ hw.1
    · exact ih hw.2 h

theorem mutableOnlyEntries_mem {k v : CV} : ∀ {e : List (CV × CV)},
    mutableOnlyEntries e = true → (k, v) ∈ e →
    mutableOnly k = true ∧ mutableOnly v = true := by
  intro e
  induction e with
  | nil => intro _ hm; cases hm
  | cons p rest ih =>
    intro hw hm
    obtain ⟨k0, v0⟩ := p
    simp only [mutableOnlyEntries, Bool.and_eq_true] at hw
    rcases List.mem_cons.mp hm with h | h
    · obtain ⟨h1, h2⟩ := Prod.mk.injEq .. ▸ h
      exact ⟨h1 ▸ hw.1.1, h2 ▸ hw.1.2⟩
    · exact ih hw.2 h

theorem mutableOnlyList_mem {x : CV} : ∀ {xs : List CV},
    mutableOnlyList xs = true → x ∈ xs → mutableOnly x = true := by
  intro xs
  induction xs with
  | nil => intro _ hm; cases hm
  | cons y rest ih =>
    intro hw hm
    simp only [mutableOnlyList, Bool.and_eq_true] at hw
    rcases List.mem_cons.mp hm with h | h
    · exact h ▸ hw.1
    · exact ih hw.2 h

theorem cmpList_refl : ∀ {xs : List CV},
    (∀ x ∈ xs, pyEq x x = true) → cmpList (pyEqFns xs) xs = true := by
  intro xs
  induction xs with
  | nil => intro _; rfl
  | cons x rest ih =>
    intro h
    simp only [pyEqFns, cmpList, Bool.and_eq_true]
    exact ⟨h x (List.mem_cons_self x rest), ih fun y hy => h y (List.mem_cons_of_mem x hy)⟩

theorem scanMatch_self {k v : CV} : ∀ {e : List (CV × CV)},
    keysOK e = true → (k, v) ∈ e → pyEq v v = true →
    scanMatch (fun b => pyEq k b) (fun b => pyEq v b) e = true := by
  intro e
  induction e with
  | nil => intro _ hm _; cases hm
  | cons p rest ih =>
    intro hok hm hv
    obtain ⟨k0, v0⟩ := p
    obtain ⟨hs, hf, hrest⟩ := keysOK_head_scalar hok
    rcases List.mem_cons.mp hm with h | h
    · obtain ⟨h1, h2⟩ := Prod.mk.injEq .. ▸ h
      subst h1; subst h2
      simp [scanMatch, pyEq_refl_scalar hs, hv]
    · have hne := (keyFresh_spec hf h).2
      simp [scanMatch, hne, ih hrest h hv]

theorem entriesLe_of_forall {e2 : List (CV × CV)} : ∀ {e1 : List (CV × CV)},
    (∀ p ∈ e1, scanMatch (fun b => pyEq p.1 b) (fun b => pyEq p.2 b) e2 = true) →
    entriesLe (pyEqEntryFns e1) e2 = true := by
  intro e1
  induction e1 with
  | nil => intro _; rfl
  | cons p rest ih =>
    intro h
    obtain ⟨k, v⟩ := p
    simp only [pyEqEntryFns, entriesLe, Bool.and_eq_true]
    exact ⟨h (k, v) (List.mem_cons_self _ _), ih fun q hq => h q (List.mem_cons_of_mem _ hq)⟩

theorem pyEq_refl_aux : ∀ (n : Nat) (x : CV),
    sizeOf x ≤ n → wellKeyed x = true → pyEq x x = true := by
  intro n
  induction n with
  | zero =>
    intro x h _
    have hx : 0 < sizeOf x := by cases x <;> simp_arith
    omega
  | succ n ih =>
    intro x hx hwk
    cases x with
    | null => rfl
    | bool b => exact pyEq_refl_scalar (by simp [isScalar])
    | int m => exact pyEq_refl_scalar (by simp [isScalar])
    | float q => exact pyEq_refl_scalar (by simp [isScalar])
    | str s => exact pyEq_refl_scalar (by simp [isScalar])
    | dict e =>
      simp only [wellKeyed, Bool.and_eq_true] at hwk
      simp only [pyEq, Bool.and_eq_true, decide_eq_true_eq]
      refine ⟨trivial, entriesLe_of_forall ?_⟩
      intro p hp
      obtain ⟨k, v⟩ := p
      have hkv := wellKeyedEntries_mem hwk.2 hp
      have hsz : sizeOf v ≤ n := by
        have h1 := List.sizeOf_lt_of_mem hp
        simp only [CV.dict.sizeOf_spec] at hx
        simp only [Prod.mk.sizeOf_spec] at h1
        omega
      exact scanMatch_self hwk.1 hp (ih v hsz hkv.2)
    | frozenDict e =>
      simp only [wellKeyed, Bool.and_eq_true] at hwk
      simp only [pyEq, Bool.and_eq_true, decide_eq_true_eq]
      refine ⟨trivial, entriesLe_of_forall ?_⟩
      intro p hp
      obtain ⟨k, v⟩ := p
      have hkv := wellKeyedEntries_mem hwk.2 hp
      have hsz : sizeOf v ≤ n := by
        have h1 := List.sizeOf_lt_of_mem hp
        simp only [CV.frozenDict.sizeOf_spec] at hx
        simp only [Prod.mk.sizeOf_spec] at h1
        omega
      exact scanMatch_self hwk.1 hp (ih v hsz hkv.2)
    | list xs =>
      simp only [wellKeyed] at hwk
      simp only [pyEq]
      refine cmpList_refl ?_
      intro x' hx'
      have hw := wellKeyedList_mem hwk hx'
      have hsz : sizeOf x' ≤ n := by
        have h1 := List.sizeOf_lt_of_mem hx'
        simp only [CV.list.sizeOf_spec] at hx
        omega
      exact ih x' hsz hw
    | tuple xs =>
      simp only [wellKeyed] at hwk
      simp only [pyEq]
      refine cmpList_refl ?_
      intro x' hx'
      have hw := wellKeyedList_mem hwk hx'
      have hsz : sizeOf x' ≤ n := by
        have h1 := List.sizeOf_lt_of_mem hx'
        simp only [CV.tuple.sizeOf_spec] at hx
        omega
      exact ih x' hsz hw

theorem pyEq_refl {x : CV} (h : wellKeyed x = true) : pyEq x x = true :=
  pyEq_refl_aux (sizeOf x) x le_rfl h

theorem keyFresh_deepFreezeEntries {k : CV} : ∀ {rest : List (CV × CV)},
    keysOK rest = true → keyFresh k rest = true →
    keyFresh k (deepFreezeEntries rest) = true := by
  intro rest
  induction rest with
  | nil => intro _ _; rfl
  | cons p rest ih =>
    intro hok hf
    obtain ⟨k0, v0⟩ := p
    obtain ⟨hs, _, hrest⟩ := keysOK_head_scalar hok
    simp only [keyFresh, Bool.and_eq_true, Bool.not_eq_true'] at hf
    simp only [deepFreezeEntries, keyFresh, deep_freeze_scalar hs, Bool.and_eq_true,
      Bool.not_eq_true']
    exact ⟨⟨hf.1.1, hf.1.2⟩, ih hrest hf.2⟩

theorem keysOK_deepFreezeEntries : ∀ {e : List (CV × CV)},
    keysOK e = true → keysOK (deepFreezeEntries e) = true := by
  intro e
  induction e with
  | nil => intro _; rfl
  | cons p rest ih =>
    intro hok
    obtain ⟨k, v⟩ := p
    obtain ⟨hs, hf, hrest⟩ := keysOK_head_scalar hok
    simp only [deepFreezeEntries, keysOK, deep_freeze_scalar hs, Bool.and_eq_true]
    exact ⟨⟨hs, keyFresh_deepFreezeEntries hrest hf⟩, ih hrest⟩

theorem wellKeyedEntries_freeze_param : ∀ {e : List (CV × CV)},
    (∀ p ∈ e, wellKeyed (deep_freeze p.1) = true ∧ wellKeyed (deep_freeze p.2) = true) →
    wellKeyedEntries (deepFreezeEntries e) = true := by
  intro e
  induction e with
  | nil => intro _; rfl
  | cons p rest ih =>
    intro h
    obtain ⟨k, v⟩ := p
    have hp := h (k, v) (List.mem_cons_self _ _)
    simp only [deepFreezeEntries, wellKeyedEntries, Bool.and_eq_true]
    exact ⟨⟨hp.1, hp.2⟩, ih fun q hq => h q (List.mem_cons_of_mem _ hq)⟩

theorem wellKeyedList_freeze_param : ∀ {xs : List CV},
    (∀ x ∈ xs, wellKeyed (deep_freeze x) = true) →
    wellKeyedList (deepFreezeList xs) = true := by
  intro xs
  induction xs with
  | nil => intro _; rfl
  | cons x rest ih =>
    intro h
    simp only [deepFreezeList, wellKeyedList, Bool.and_eq_true]
    exact ⟨h x (List.mem_cons_self _ _), ih fun y hy => h y (List.mem_cons_of_mem _ hy)⟩

theorem wellKeyed_freeze_aux : ∀ (n : Nat) (x : CV),
    sizeOf x ≤ n → wellKeyed x = true → wellKeyed (deep_freeze x) = true := by
  intro n
  induction n with
  | zero =>
    intro x h _
    have hx : 0 < sizeOf x := by cases x <;> simp_arith
    omega
  | succ n ih =>
    intro x hx hwk
    cases x with
    | null => exact hwk
    | bool b => exact hwk
    | int m => exact hwk
    | float q => exact hwk
    | str s => exact hwk
    | frozenDict e => exact hwk
    | tuple xs => exact hwk
    | dict e =>
      simp only [wellKeyed, Bool.and_eq_true] at hwk
      simp only [deep_freeze, wellKeyed, Bool.and_eq_true]
      refine ⟨keysOK_deepFreezeEntries hwk.1, wellKeyedEntries_freeze_param ?_⟩
      intro p hp
      obtain ⟨k, v⟩ := p
      have hkv := wellKeyedEntries_mem hwk.2 hp
      have h1 := List.sizeOf_lt_of_mem hp
      simp only [CV.dict.sizeOf_spec] at hx
      simp only [Prod.mk.sizeOf_spec] at h1
      exact ⟨ih k (by omega) hkv.1, ih v (by omega) hkv.2⟩
    | list xs =>
      simp only [wellKeyed] at hwk
      simp only [deep_freeze, wellKeyed]
      refine wellKeyedList_freeze_param ?_
      intro x' hx'
      have hw := wellKeyedList_mem hwk hx'
      have h1 := List.sizeOf_lt_of_mem hx'
      simp only [CV.list.sizeOf_spec] at hx
      exact ih x' (by omega) hw

theorem wellKeyed_freeze {x : CV} (h : wellKeyed x = true) :
    wellKeyed (deep_freeze x) = true :=
  wellKeyed_freeze_aux (sizeOf x) x le_rfl h

theorem mergeListAux_skip_all : ∀ {l2 l1 member : List CV},
    (∀ v ∈ l2, pyMem (deep_freeze v) member = true) →
    mergeListAux l1 member l2 = l1 := by
  intro l2
  induction l2 with
  | nil => intro l1 member _; rfl
  | cons v rest ih =>
    intro l1 member h
    have hv := h v (List.mem_cons_self _ _)
    simp only [mergeListAux, hv, if_pos]
    exact ih fun y hy => h y (List.mem_cons_of_mem _ hy)

theorem merge_list_self {l : List CV} (h : wellKeyedList l = true) :
    merge_list l l = l := by
  unfold merge_list
  apply mergeListAux_skip_all
  intro v hv
  apply pyMem_of_mem (List.mem_map_of_mem deep_freeze hv)
  exact pyEq_refl (wellKeyed_freeze (wellKeyedList_mem h hv))

theorem merge_dict_fix : ∀ {rest d : List (CV × CV)},
    (∀ p ∈ rest, pyLookup p.1 d = some p.2 ∧ merge p.2 p.2 = (p.2, .ok p.2)) →
    merge_dict d rest = (d, none) := by
  intro rest
  induction rest with
  | nil => intro d _; rfl
  | cons p rest ih =>
    intro d h
    obtain ⟨k, v⟩ := p
    have hp := h (k, v) (List.mem_cons_self _ _)
    simp only [merge_dict, hp.1, hp.2]
    rw [dictReplace_self hp.1]
    exact ih fun q hq => h q (List.mem_cons_of_mem _ hq)

theorem merge_self_aux : ∀ (n : Nat) (x : CV), sizeOf x ≤ n →
    mutableOnly x = true → wellKeyed x = true → merge x x = (x, .ok x) := by
  intro n
  induction n with
  | zero =>
    intro x h _ _
    have hx : 0 < sizeOf x := by cases x <;> simp_arith
    omega
  | succ n ih =>
    intro x hx hmut hwk
    cases x with
    | null => rfl
    | bool b => rfl
    | int m => rfl
    | float q => rfl
    | str s => rfl
    | frozenDict e => simp [mutableOnly] at hmut
    | tuple xs => simp [mutableOnly] at hmut
    | list xs =>
      simp only [wellKeyed] at hwk
      simp only [merge, merge_list_self hwk]
    | dict e =>
      simp only [mutableOnly] at hmut
      simp only [wellKeyed, Bool.and_eq_true] at hwk
      have hfix : merge_dict e e = (e, none) := by
        apply merge_dict_fix
        intro p hp
        obtain ⟨k, v⟩ := p
        have hkv := wellKeyedEntries_mem hwk.2 hp
        have hmv := (mutableOnlyEntries_mem hmut hp).2
        have h1 := List.sizeOf_lt_of_mem hp
        simp only [CV.dict.sizeOf_spec] at hx
        simp only [Prod.mk.sizeOf_spec] at h1
        exact ⟨pyLookup_self hwk.1 hp, ih v (by omega) hmv hkv.2⟩
      simp only [merge, hfix]

theorem length_deepFreezeEntries (e : List (CV × CV)) :
    (deepFreezeEntries e).length = e.length := by
  rw [deepFreezeEntries_eq_map, List.length_map]

theorem scanMatch_freeze {k v : CV}
    (ihk : ∀ y, mutableOnly y = true → pyEq (deep_freeze k) (deep_freeze y) = structEquiv k y)
    (ihv : ∀ y, mutableOnly y = true → pyEq (deep_freeze v) (deep_freeze y) = structEquiv v y) :
    ∀ {e2 : List (CV × CV)}, mutableOnlyEntries e2 = true →
    scanMatch (fun b => pyEq (deep_freeze k) b) (fun b => pyEq (deep_freeze v) b)
        (deepFreezeEntries e2)
      = scanMatch (fun b => structEquiv k b) (fun b => structEquiv v b) e2 := by
  intro e2
  induction e2 with
  | nil => intro _; rfl
  | cons p rest ih =>
    intro hm
    obtain ⟨k', v'⟩ := p
    simp only [mutableOnlyEntries, Bool.and_eq_true] at hm
    simp only [deepFreezeEntries, scanMatch]
    rw [ihk k' hm.1.1, ihv v' hm.1.2, ih hm.2]

theorem entriesLe_freeze {e2 : List (CV × CV)} (hm2 : mutableOnlyEntries e2 = true) :
    ∀ {e1 : List (CV × CV)},
    (∀ p ∈ e1,
      (∀ y, mutableOnly y = true → pyEq (deep_freeze p.1) (deep_freeze y) = structEquiv p.1 y)
    ∧ (∀ y, mutableOnly y = true → pyEq (deep_freeze p.2) (deep_freeze y) = structEquiv p.2 y)) →
    entriesLe (pyEqEntryFns (deepFreezeEntries e1)) (deepFreezeEntries e2)
      = entriesLe (structEquivEntryFns e1) e2 := by
  intro e1
  induction e1 with
  | nil => intro _; rfl
  | cons p rest ih =>
    intro h
    obtain ⟨k, v⟩ := p
    have hp := h (k, v) (List.mem_cons_self _ _)
    simp only [deepFreezeEntries, pyEqEntryFns, structEquivEntryFns, entriesLe]
    rw [scanMatch_freeze hp.1 hp.2 hm2, ih fun q hq => h q (List.mem_cons_of_mem _ hq)]

theorem cmpList_freeze : ∀ {xs : List CV},
    (∀ x ∈ xs, ∀ y, mutableOnly y = true →
      pyEq (deep_freeze x) (deep_freeze y) = structEquiv x y) →
    ∀ {ys : List CV}, mutableOnlyList ys = true →
    cmpList (pyEqFns (deepFreezeList xs)) (deepFreezeList ys)
      = cmpList (structEquivFns xs) ys := by
  intro xs
  induction xs with
  | nil =>
    intro _ ys _
    cases ys <;> rfl
  | cons x rest ih =>
    intro h ys hm
    cases ys with
    | nil => rfl
    | cons y ys' =>
      simp only [mutableOnlyList, Bool.and_eq_true] at hm
      simp only [deepFreezeList, pyEqFns, structEquivFns, cmpList]
      rw [h x (List.mem_cons_self _ _) y hm.1,
        ih (fun x' hx' => h x' (List.mem_cons_of_mem _ hx')) hm.2]

theorem freeze_structEquiv_aux : ∀ (n : Nat) (x : CV), sizeOf x ≤ n →
    ∀ (y : CV), mutableOnly x = true → mutableOnly y = true →
    pyEq (deep_freeze x) (deep_freeze y) = structEquiv x y := by
  intro n
  induction n with
  | zero =>
    intro x h
    have hx : 0 < sizeOf x := by cases x <;> simp_arith
    omega
  | succ n ih =>
    intro x hx y hmx hmy
    cases x with
    | frozenDict e => simp [mutableOnly] at hmx
    | tuple xs => simp [mutableOnly] at hmx
    | null => cases y <;> rfl
    | bool b => cases y <;> rfl
    | int m => cases y <;> rfl
    | float q => cases y <;> rfl
    | str s => cases y <;> rfl
    | list xs =>
      cases y with
      | list ys =>
        simp only [mutableOnly] at hmx hmy
        simp only [deep_freeze, pyEq, structEquiv]
        apply cmpList_freeze _ hmy
        intro x' hx' y' hmy'
        have h1 := List.sizeOf_lt_of_mem hx'
        simp only [CV.list.sizeOf_spec] at hx
        exact ih x' (by omega) y' (mutableOnlyList_mem hmx hx') hmy'
      | _ => first | rfl | simp [mutableOnly] at hmy
    | dict e1 =>
      cases y with
      | dict e2 =>
        simp only [mutableOnly] at hmx hmy
        have hrec : ∀ p ∈ e1,
            (∀ y', mutableOnly y' = true →
              pyEq (deep_freeze p.1) (deep_freeze y') = structEquiv p.1 y')
          ∧ (∀ y', mutableOnly y' = true →
              pyEq (deep_freeze p.2) (deep_freeze y') = structEquiv p.2 y') := by
          intro p hp
          obtain ⟨k, v⟩ := p
          have hm := mutableOnlyEntries_mem hmx hp
          have h1 := List.sizeOf_lt_of_mem hp
          simp only [CV.dict.sizeOf_spec] at hx
          simp only [Prod.mk.sizeOf_spec] at h1
          exact ⟨fun y' hy' => ih k (by omega) y' hm.1 hy',
                 fun y' hy' => ih v (by omega) y' hm.2 hy'⟩
        simp only [deep_freeze, pyEq, structEquiv]
        rw [length_deepFreezeEntries, length_deepFreezeEntries,
          entriesLe_freeze hmy hrec]
      | _ => first | rfl | simp [mutableOnly] at hmy

theorem freeze_structEquiv {x y : CV} (hx : mutableOnly x = true)
    (hy : mutableOnly y = true) :
    pyEq (deep_freeze x) (deep_freeze y) = structEquiv x y :=
  freeze_structEquiv_aux (sizeOf x) x le_rfl y hx hy

theorem merge_dict_disjoint : ∀ {B A : List (CV × CV)},
    keysOK B = true → keysDisjoint A B = true →
    merge_dict A B = (A ++ B, none) := by
  intro B
  induction B with
  | nil => intro A _ _; simp [merge_dict]
  | cons p rest ih =>
    intro A hok hd
    obtain ⟨k, v⟩ := p
    obtain ⟨hs, hf, hrest⟩ := keysOK_head_scalar hok
    simp only [keysDisjoint, List.all_cons, Bool.and_eq_true] at hd
    have hnone : pyLookup k A = none := Option.isNone_iff_eq_none.mp hd.1
    have hd2 : keysDisjoint (A ++ [(k, v)]) rest = true := by
      simp only [keysDisjoint, List.all_eq_true]
      intro q hq
      obtain ⟨qk, qv⟩ := q
      have hqa : pyLookup qk A = none :=
        Option.isNone_iff_eq_none.mp (List.all_eq_true.mp hd.2 (qk, qv) hq)
      have hqk : pyEq qk k = false := (keyFresh_spec hf hq).2
      rw [Option.isNone_iff_eq_none, pyLookup_append, hqa]
      simp [pyLookup, hqk]
    simp only [merge_dict, hnone]
    rw [ih hrest hd2]
    simp

theorem deepFreezeList_scalar : ∀ {xs : List CV},
    (∀ x ∈ xs, isScalar x = true) → deepFreezeList xs = xs := by
  intro xs
  induction xs with
  | nil => intro _; rfl
  | cons x rest ih =>
    intro h
    simp only [deepFreezeList]
    rw [deep_freeze_scalar (h x (List.mem_cons_self _ _)),
      ih fun y hy => h y (List.mem_cons_of_mem _ hy)]

/-- C1: sequence merge appends to the base exactly those incoming elements
whose canonical form (`deep_freeze`) is not `==`-equal to the canonical form
of any element of the union built so far (the base's original elements plus
the elements appended earlier in the call), in order; the base's original
elements are retained unchanged, in order, before all appended ones.  In
particular `merge([1,2,1], [3,4,1,5])` yields `[1,2,1,3,4,5]`. -/
theorem C1_sequence_merge :
    (∀ l1 l2 : List CV, merge_list l1 l2 = l1 ++ sieve (l1.map deep_freeze) l2)
  ∧ merge (.list [.int 1, .int 2, .int 1]) (.list [.int 3, .int 4, .int 1, .int 5])
      = (.list [.int 1, .int 2, .int 1, .int 3, .int 4, .int 5],
         .ok (.list [.int 1, .int 2, .int 1, .int 3, .int 4, .int 5])) :=
  ⟨fun l1 l2 => mergeListAux_eq_sieve l2 l1 (l1.map deep_freeze), rfl⟩

/-- C2: mapping merge walks the incoming entries in iteration order,
inserting an absent key with its incoming value verbatim and replacing a
present key's value with `merge(base[key], value)`, then returns the base;
for mappings with disjoint keys the result is the key-set union with every
value unchanged from its source, and the nested example
`merge({a:{x:1,y:2}}, {a:{y:3,z:4}})` gives `{a:{x:1,y:3,z:4}}`. -/
theorem C2_mapping_merge :
    (∀ (d1 : List (CV × CV)) (k v : CV) (rest : List (CV × CV)),
      pyLookup k d1 = none →
      merge_dict d1 ((k, v) :: rest) = merge_dict (d1 ++ [(k, v)]) rest)
  ∧ (∀ (d1 : List (CV × CV)) (k v old st nv : CV) (rest : List (CV × CV)),
      pyLookup k d1 = some old → merge old v = (st, .ok nv) →
      merge_dict d1 ((k, v) :: rest) = merge_dict (dictReplace k nv d1) rest)
  ∧ (∀ (d1 e2 st : List (CV × CV)), merge_dict d1 e2 = (st, none) →
      merge (.dict d1) (.dict e2) = (.dict st, .ok (.dict st)))
  ∧ (∀ A B : List (CV × CV), keysOK B = true → keysDisjoint A B = true →
      merge_dict A B = (A ++ B, none))
  ∧ merge (.dict [(.str "a", .dict [(.str "x", .int 1), (.str "y", .int 2)])])
          (.dict [(.str "a", .dict [(.str "y", .int 3), (.str "z", .int 4)])])
      = (.dict [(.str "a",
            .dict [(.str "x", .int 1), (.str "y", .int 3), (.str "z", .int 4)])],
         .ok (.dict [(.str "a",
            .dict [(.str "x", .int 1), (.str "y", .int 3), (.str "z", .int 4)])])) := by
  refine ⟨?_, ?_, ?_, ?_, rfl⟩
  · intro d1 k v rest h
    simp [merge_dict, h]
  · intro d1 k v old st nv rest h1 h2
    simp [merge_dict, h1, h2]
  · intro d1 e2 st h
    simp [merge, h]
  · intro A B h1 h2
    exact merge_dict_disjoint h1 h2

theorem C2_mapping_merge_witness :
    merge_dict [] [(.str "a", .int 1)] = merge_dict ([] ++ [(.str "a", .int 1)]) []
  ∧ merge_dict [(.str "a", .int 1)] [(.str "a", .int 2)]
      = merge_dict (dictReplace (.str "a") (.int 2) [(.str "a", .int 1)]) []
  ∧ merge (.dict [(.str "a", .int 1)]) (.dict [])
      = (.dict [(.str "a", .int 1)], .ok (.dict [(.str "a", .int 1)]))
  ∧ merge_dict [(.str "a", .int 1)] [(.str "b", .int 2)]
      = ([(.str "a", .int 1)] ++ [(.str "b", .int 2)], none) :=
  ⟨C2_mapping_merge.1 [] (.str "a") (.int 1) [] rfl,
   C2_mapping_merge.2.1 [(.str "a", .int 1)] (.str "a") (.int 2) (.int 1) (.int 1) (.int 2)
     [] rfl rfl,
   C2_mapping_merge.2.2.1 [(.str "a", .int 1)] [] [(.str "a", .int 1)] rfl,
   C2_mapping_merge.2.2.2.1 [(.str "a", .int 1)] [(.str "b", .int 2)] rfl rfl⟩

/-- C3 counterexample: the claim says a Boolean paired with an Integer and an
Integer paired with a Float of equal value must fail, but `merge_simple`
succeeds on both and returns the incoming value: in Python `bool` is a
subclass of `int` and `Integral ⊆ Real`, so `isinstance(True, Integral)` and
`isinstance(1, Real)` both hold and the cascading checks accept the pairs. -/
theorem C3_scalar_merge_counterexample :
    merge_simple (.bool true) (.int 5) = .ok (.int 5)
  ∧ merge_simple (.int 1) (.float 1) = .ok (.float 1) :=
  ⟨rfl, rfl⟩

/-- C3 amended: `merge_simple` returns the incoming value whenever both
operands are numeric (Boolean, Integer or Float in any combination — the
numeric tower makes them mutually compatible) or both are Text, and fails
with the `TypeError` exactly when a numeric value is paired with a Text. -/
theorem C3_scalar_merge_amended :
    (∀ v1 v2 : CV, isRealV v1 = true → isRealV v2 = true →
      merge_simple v1 v2 = .ok v2)
  ∧ (∀ v1 v2 : CV, isTextV v1 = true → isTextV v2 = true →
      merge_simple v1 v2 = .ok v2)
  ∧ (∀ v1 v2 : CV, isRealV v1 = true → isTextV v2 = true →
      merge_simple v1 v2 = .error "unsupported type or type combination")
  ∧ (∀ v1 v2 : CV, isTextV v1 = true → isRealV v2 = true →
      merge_simple v1 v2 = .error "unsupported type or type combination") := by
  refine ⟨?_, ?_, ?_, ?_⟩ <;>
    intro v1 v2 h1 h2 <;>
    cases v1 <;> cases v2 <;>
    simp_all [isRealV, isTextV, merge_simple, isBoolV, isIntegralV]

theorem C3_scalar_merge_amended_witness :
    merge_simple (.float 2) (.int 3) = .ok (.int 3)
  ∧ merge_simple (.str "a") (.str "b") = .ok (.str "b")
  ∧ merge_simple (.int 1) (.str "x") = .error "unsupported type or type combination"
  ∧ merge_simple (.str "x") (.bool true) = .error "unsupported type or type combination" :=
  ⟨C3_scalar_merge_amended.1 (.float 2) (.int 3) rfl rfl,
   C3_scalar_merge_amended.2.1 (.str "a") (.str "b") rfl rfl,
   C3_scalar_merge_amended.2.2.1 (.int 1) (.str "x") rfl rfl,
   C3_scalar_merge_amended.2.2.2 (.str "x") (.bool true) rfl rfl⟩

/-- C4 counterexample: the claim says a Sequence base with a Text incoming
must fail with a type mismatch, but in Python `str` is registered as a
`Sequence`, so the incoming-kind check accepts it and `merge_list` iterates
the string, appending its characters (deduplicated) to the base list. -/
theorem C4_dispatch_counterexample :
    merge (.list [.int 1]) (.str "ab")
      = (.list [.int 1, .str "a", .str "b"],
         .ok (.list [.int 1, .str "a", .str "b"])) := rfl

/-- C4 amended: a Mapping base with an incoming that is neither Null nor a
Mapping fails; a non-Text Sequence base with an incoming that is neither Null
nor a Sequence fails — but Text counts as a Sequence for the incoming check,
so `merge(list, Text)` succeeds and appends the Text's characters;
`merge(Mapping, Sequence)` and `merge(Integer, Text)` both fail. -/
theorem C4_dispatch_amended :
    (∀ base v2 : CV, isMappingV base = true → isMappingV v2 = false →
      v2 ≠ .null → isErrRes (merge base v2) = true)
  ∧ (∀ base v2 : CV, isSeqNonTextV base = true → isSequenceV v2 = false →
      v2 ≠ .null → isErrRes (merge base v2) = true)
  ∧ isErrRes (merge (.dict [(.str "a", .int 1)]) (.list [.int 1])) = true
  ∧ isErrRes (merge (.int 1) (.str "x")) = true
  ∧ merge (.list [.int 1]) (.str "ab")
      = (.list [.int 1, .str "a", .str "b"],
         .ok (.list [.int 1, .str "a", .str "b"])) := by
  refine ⟨?_, ?_, rfl, rfl, rfl⟩
  · intro base v2 h1 h2 hn
    cases base <;> cases v2 <;> simp_all [isMappingV, isErrRes, merge]
  · intro base v2 h1 h2 hn
    cases base <;> cases v2 <;> simp_all [isSeqNonTextV, isSequenceV, isErrRes, merge]

theorem C4_dispatch_amended_witness :
    isErrRes (merge (.dict [(.str "a", .int 1)]) (.str "s")) = true
  ∧ isErrRes (merge (.list [.int 1]) (.dict [])) = true :=
  ⟨C4_dispatch_amended.1 (.dict [(.str "a", .int 1)]) (.str "s") rfl rfl
     (fun h => CV.noConfusion h),
   C4_dispatch_amended.2.1 (.list [.int 1]) (.dict []) rfl rfl
     (fun h => CV.noConfusion h)⟩

/-- C5 counterexample: the claim says a Boolean and an Integer, and an
Integer and a Float of equal magnitude, are distinct canonical values that
compare unequal; but the canonical forms compare with Python `==`, under
which `True == 1 == 1.0`, so they are equal — and the sequence-merge
deduplication set treats them as duplicates, so merging `[1]` into `[True]`
appends nothing. -/
theorem C5_canonical_counterexample :
    pyEq (deep_freeze (.bool true)) (deep_freeze (.int 1)) = true
  ∧ pyEq (deep_freeze (.int 1)) (deep_freeze (.float 1)) = true
  ∧ merge_list [.bool true] [.int 1] = [.bool true] :=
  ⟨rfl, rfl, rfl⟩

/-- C5 amended: on the spec's CV data model (trees of scalars and mutable
containers), equality of canonical forms coincides exactly with structural
equivalence of the trees — mapping key order ignored, sequence order
respected — where numeric scalars (Boolean/Integer/Float) are identified by
numeric value rather than distinguished by kind. -/
theorem C5_canonical_amended :
    ∀ x y : CV, mutableOnly x = true → mutableOnly y = true →
    pyEq (deep_freeze x) (deep_freeze y) = structEquiv x y :=
  fun _ _ hx hy => freeze_structEquiv hx hy

theorem C5_canonical_amended_witness :
    pyEq (deep_freeze (.dict [(.str "a", .int 1), (.str "b", .list [.int 2])]))
         (deep_freeze (.dict [(.str "b", .list [.int 2]), (.str "a", .float 1)]))
      = structEquiv (.dict [(.str "a", .int 1), (.str "b", .list [.int 2])])
                    (.dict [(.str "b", .list [.int 2]), (.str "a", .float 1)]) :=
  C5_canonical_amended (.dict [(.str "a", .int 1), (.str "b", .list [.int 2])])
    (.dict [(.str "b", .list [.int 2]), (.str "a", .float 1)]) rfl rfl

/-- C6 counterexample: the claim says a failing merge leaves the base
unchanged, but `merge_dict` mutates the base in place as it iterates: merging
`{a:2, b:[]}` into `{a:1, b:{}}` first replaces `a` with `2` and only then
fails on `b` (a list cannot merge into a mapping), so the error propagates
while the base keeps the already-merged key `a`. -/
theorem C6_atomicity_counterexample :
    merge_dict [(.str "a", .int 1), (.str "b", .dict [])]
               [(.str "a", .int 2), (.str "b", .list [])]
      = ([(.str "a", .int 2), (.str "b", .dict [])],
         some "can only merge another mapping into mapping")
  ∧ [((CV.str "a"), (CV.int 2)), ((CV.str "b"), (CV.dict []))]
      ≠ [((CV.str "a"), (CV.int 1)), ((CV.str "b"), (CV.dict []))] := by
  refine ⟨rfl, fun h => ?_⟩
  injection h with h1 _
  injection h1 with _ hv
  injection hv with h3
  exact absurd h3 (by decide)

/-- C6 amended: a type-mismatch failure propagates immediately — the first
failing recursive merge aborts the iteration on the spot and the enclosing
`merge` surfaces the same error, returning no merged result — but the base is
not rolled back: it keeps every mutation applied before the failure (keys
already merged, and the partial state of the value whose merge failed). -/
theorem C6_atomicity_amended :
    (∀ (d1 : List (CV × CV)) (k v old st : CV) (e : String)
        (rest : List (CV × CV)),
      pyLookup k d1 = some old → merge old v = (st, .error e) →
      merge_dict d1 ((k, v) :: rest) = (dictReplace k st d1, some e))
  ∧ (∀ (d1 e2 st : List (CV × CV)) (e : String),
      merge_dict d1 e2 = (st, some e) →
      merge (.dict d1) (.dict e2) = (.dict st, .error e)) := by
  constructor
  · intro d1 k v old st e rest h1 h2
    simp [merge_dict, h1, h2]
  · intro d1 e2 st e h
    simp [merge, h]

theorem C6_atomicity_amended_witness :
    merge_dict [(.str "a", .dict [])] [(.str "a", .list [])]
      = (dictReplace (.str "a") (.dict []) [(.str "a", .dict [])],
         some "can only merge another mapping into mapping")
  ∧ merge (.dict [(.str "a", .dict [])]) (.dict [(.str "a", .list [])])
      = (.dict [(.str "a", .dict [])],
         .error "can only merge another mapping into mapping") :=
  ⟨C6_atomicity_amended.1 [(.str "a", .dict [])] (.str "a") (.list []) (.dict [])
     (.dict []) "can only merge another mapping into mapping" [] rfl rfl,
   C6_atomicity_amended.2 [(.str "a", .dict [])] [(.str "a", .list [])]
     [(.str "a", .dict [])] "can only merge another mapping into mapping" rfl⟩

/-- C7 counterexample: the claim says two sequences with identical elements
in identical order canonicalize equal regardless of their original container
type, but `deep_freeze` freezes an immutable sequence shallowly
(`tuple(obj)`), so a tuple holding a mutable list keeps the raw list while
the equal-elements mutable list is frozen recursively, and the canonical
forms differ. -/
theorem C7_ordering_counterexample :
    pyEq (deep_freeze (.list [.list [.int 1]]))
         (deep_freeze (.tuple [.list [.int 1]])) = false := rfl

/-- C7 amended: two well-keyed mappings whose entry lists are permutations of
one another canonicalize equal (mapping canonicalization is
order-independent); a mutable and an immutable sequence with the same scalar
elements in the same order canonicalize equal (container origin is erased for
already-canonical elements, though not for mutable elements of an immutable
container, as the counterexample shows); sequence canonical equality is
order-sensitive. -/
theorem C7_ordering_amended :
    (∀ e1 e2 : List (CV × CV), wellKeyed (.dict e1) = true →
      wellKeyed (.dict e2) = true → e1.Perm e2 →
      pyEq (deep_freeze (.dict e1)) (deep_freeze (.dict e2)) = true)
  ∧ (∀ xs : List CV, (∀ x ∈ xs, isScalar x = true) →
      pyEq (deep_freeze (.list xs)) (deep_freeze (.tuple xs)) = true)
  ∧ pyEq (deep_freeze (.list [.int 1, .int 2]))
         (deep_freeze (.list [.int 2, .int 1])) = false := by
  refine ⟨?_, ?_, rfl⟩
  · intro e1 e2 hw1 hw2 hperm
    have hwf2 := wellKeyed_freeze hw2
    simp only [deep_freeze, wellKeyed, Bool.and_eq_true] at hwf2
    simp only [wellKeyed, Bool.and_eq_true] at hw1
    simp only [deep_freeze, pyEq, Bool.and_eq_true, decide_eq_true_eq]
    refine ⟨by rw [length_deepFreezeEntries, length_deepFreezeEntries,
      hperm.length_eq], ?_⟩
    refine entriesLe_of_forall ?_
    intro p hp
    rw [deepFreezeEntries_eq_map] at hp
    obtain ⟨⟨k, v⟩, hkv, rfl⟩ := List.mem_map.mp hp
    have hv2 : (k, v) ∈ e2 := hperm.mem_iff.mp hkv
    have hmem2 : (deep_freeze k, deep_freeze v) ∈ deepFreezeEntries e2 := by
      rw [deepFreezeEntries_eq_map]
      exact List.mem_map_of_mem _ hv2
    have hwv : wellKeyed v = true := (wellKeyedEntries_mem hw1.2 hkv).2
    exact scanMatch_self hwf2.1 hmem2 (pyEq_refl (wellKeyed_freeze hwv))
  · intro xs hs
    simp only [deep_freeze, deepFreezeList_scalar hs, pyEq]
    exact cmpList_refl fun x hx => pyEq_refl_scalar (hs x hx)

theorem C7_ordering_amended_witness :
    pyEq (deep_freeze (.dict [(.str "a", .int 1), (.str "b", .int 2)]))
         (deep_freeze (.dict [(.str "b", .int 2), (.str "a", .int 1)])) = true
  ∧ pyEq (deep_freeze (.list [.int 1, .str "x"]))
         (deep_freeze (.tuple [.int 1, .str "x"])) = true :=
  ⟨C7_ordering_amended.1 [(.str "a", .int 1), (.str "b", .int 2)]
     [(.str "b", .int 2), (.str "a", .int 1)] rfl rfl (List.Perm.swap _ _ _),
   C7_ordering_amended.2.1 [.int 1, .str "x"] (by decide)⟩

/-- C8: Null is a two-sided identity for `merge`: a Null incoming returns the
base unchanged (Null never overwrites) and a Null base is replaced wholesale
by the incoming value, with no type checking in either direction. -/
theorem C8_null_identity :
    ∀ x : CV, merge x .null = (x, .ok x) ∧ merge .null x = (.null, .ok x) := by
  intro x
  cases x <;> exact ⟨rfl, rfl⟩

/-- C9: merging a value of the (mutable, uniquely-keyed) CV data model with
itself succeeds and leaves it unchanged: every incoming mapping key is
already present and re-merges to the same value, and every incoming sequence
element is a duplicate of the union built so far, so nothing is appended. -/
theorem C9_idempotence :
    ∀ x : CV, mutableOnly x = true → wellKeyed x = true →
    merge x x = (x, .ok x) :=
  fun x => merge_self_aux (sizeOf x) x le_rfl

theorem C9_idempotence_witness :
    merge (.dict [(.str "a", .int 1), (.str "b", .list [.int 2, .int 2])])
          (.dict [(.str "a", .int 1), (.str "b", .list [.int 2, .int 2])])
      = (.dict [(.str "a", .int 1), (.str "b", .list [.int 2, .int 2])],
         .ok (.dict [(.str "a", .int 1), (.str "b", .list [.int 2, .int 2])])) :=
  C9_idempotence (.dict [(.str "a", .int 1), (.str "b", .list [.int 2, .int 2])])
    rfl rfl

/-- C10 counterexample: the claim says every call with an immutable base
raises, but the Null check on the incoming value runs first (`value2 is
None` returns the base), so an immutable base with a Null incoming returns
the base with no error. -/
theorem C10_mutability_counterexample :
    merge (.tuple [.int 1]) .null = (.tuple [.int 1], .ok (.tuple [.int 1]))
  ∧ merge (.frozenDict [(.str "a", .int 1)]) .null
      = (.frozenDict [(.str "a", .int 1)], .ok (.frozenDict [(.str "a", .int 1)])) :=
  ⟨rfl, rfl⟩

/-- C10 amended: for every non-Null incoming value, an immutable Mapping base
fails with "mapping must be mutable" and an immutable Sequence base fails
with "sequence must be mutable" — even when the incoming value is of the
matching kind, because within the container dispatch the mutability check
precedes the incoming-kind check (only the Null short-circuits run before
it). -/
theorem C10_mutability_amended :
    (∀ (e : List (CV × CV)) (v2 : CV), v2 ≠ .null →
      merge (.frozenDict e) v2 = (.frozenDict e, .error "mapping must be mutable"))
  ∧ (∀ (xs : List CV) (v2 : CV), v2 ≠ .null →
      merge (.tuple xs) v2 = (.tuple xs, .error "sequence must be mutable")) := by
  constructor
  · intro e v2 hn
    cases v2 <;> first | exact absurd rfl hn | rfl
  · intro xs v2 hn
    cases v2 <;> first | exact absurd rfl hn | rfl

theorem C10_mutability_amended_witness :
    merge (.frozenDict [(.str "a", .int 1)]) (.dict [(.str "b", .int 2)])
      = (.frozenDict [(.str "a", .int 1)], .error "mapping must be mutable")
  ∧ merge (.tuple [.int 1]) (.list [.int 2])
      = (.tuple [.int 1], .error "sequence must be mutable") :=
  ⟨C10_mutability_amended.1 [(.str "a", .int 1)] (.dict [(.str "b", .int 2)])
     (fun h => CV.noConfusion h),
   C10_mutability_amended.2 [.int 1] (.list [.int 2])
     (fun h => CV.noConfusion h)⟩
